import Mathlib

/-!
Verification of the porto container property engine against its specification.

The definitions below are a shallow embedding of the relevant parts of
`src/property.cpp` and `src/util/string.cpp`.  Machine integers (uint64_t
bitmasks) are modelled as `Nat` with explicit 64-bit complement where the code
uses `~`; C++ `double` values that only flow through comparisons are modelled
as `ℚ`.  `TError` results are modelled as `Option EError` (with `none` for
success) for mutators and `Except EError α` for accessors returning a value.
-/

namespace Porto

/-- Error kinds of `TError` (§7 of the spec, enum `EError`). -/
inductive EError where
  | InvalidValue
  | InvalidState
  | InvalidProperty
  | Permission
  | NotSupported
  | ResourceNotAvailable
  | Unknown
  deriving DecidableEq, Repr

/-- Embedding of `EContainerState` (spec §3). -/
inductive EContainerState where
  | Stopped
  | Starting
  | Running
  | Paused
  | Dead
  deriving DecidableEq, Repr

/-- Embedding of `VirtMode` values `VIRT_MODE_APP` / `VIRT_MODE_OS`. -/
inductive VirtMode where
  | App
  | Os
  deriving DecidableEq, Repr

/-- The `EProperty` identifiers used by the embedded setters (`SetProp` bitmap
entries).  The presence bitmap is modelled as a duplicate-free list. -/
inductive EProperty where
  | MEM_LIMIT
  | MEM_GUARANTEE
  | CPU_LIMIT
  | BIND_DNS
  | ULIMIT
  | CONTROLLERS
  | CAPABILITIES
  | CAPABILITIES_AMBIENT
  deriving DecidableEq, Repr

/-! ## String utilities (src/util/string.cpp) -/

/-- The NUL character: `SplitEscapedString`/`MergeEscapeStrings` receive the
outer separator as a `char` whose zero value means "no outer separator". -/
def nulChar : Char := Char.ofNat 0

/-- C `isblank`: space or horizontal tab. -/
def isBlankC (c : Char) : Bool := c = ' ' || c = '\t'

/-- C `isspace`: the six standard whitespace characters (used by `strtod` for
leading whitespace). -/
def isSpaceC (c : Char) : Bool :=
  c = ' ' || c = '\t' || c = '\n' || c = '\x0b' || c = '\x0c' || c = '\r'

/-- Default trim set of `StringTrim` (declared in util/string.hpp, which is not
under src/): space, tab and newline. -/
def trimChars : List Char := [' ', '\t', '\n']

/-- Embedding of `StringTrim` on a character list: drop characters of `trimChars` from both
ends (`find_first_not_of` / `find_last_not_of`). -/
def trimC (s : List Char) : List Char :=
  ((s.dropWhile (fun c => c ∈ trimChars)).reverse.dropWhile
    (fun c => c ∈ trimChars)).reverse

/-- Embedding of `StringTrim` with the default `what`. -/
def StringTrim (s : String) : String := String.mk (trimC s.data)

/-- Embedding of `StringReplaceAll` for a single-character pattern.  All call sites in
`MergeEscapeStrings` use one-character `from` strings ("\\" and the two
separators); for those the scan-and-skip loop of the source is exactly this
character-wise replacement (the loop advances past the replacement text, so
inserted characters are never rescanned). -/
def replaceAllC (pat : Char) (rep : List Char) : List Char → List Char
  | [] => []
  | d :: rest => (if d = pat then rep else [d]) ++ replaceAllC pat rep rest

/-- Decidable equality for `Except` results. -/
instance {ε α : Type} [DecidableEq ε] [DecidableEq α] : DecidableEq (Except ε α) := fun x y =>
  match x, y with
  | .error a, .error b =>
    if h : a = b then .isTrue (h ▸ rfl) else .isFalse (fun hh => h (by cases hh; rfl))
  | .ok a, .ok b =>
    if h : a = b then .isTrue (h ▸ rfl) else .isFalse (fun hh => h (by cases hh; rfl))
  | .error _, .ok _ => .isFalse (fun hh => Except.noConfusion hh)
  | .ok _, .error _ => .isFalse (fun hh => Except.noConfusion hh)

/-- Embedding of `BoolToString`. -/
def BoolToString (b : Bool) : String := if b then "true" else "false"

/-- Embedding of `StringToBool`: only the literals "true" and "false" are accepted; note the
source reports failures with kind `EError::Unknown`. -/
def StringToBool (s : String) : Except EError Bool :=
  if s = "true" then .ok true
  else if s = "false" then .ok false
  else .error .Unknown

/-! ### SplitEscapedString / MergeEscapeStrings

The worker loop of `SplitEscapedString` keeps `tuples` as a vector whose last
element is the tuple currently being filled.  `splitLoopC` carries that last
tuple separately (`cur`), with `done ++ [cur]` corresponding to `tuples`
whenever `cur` is relevant: pushing a new empty tuple when the last one is
non-empty becomes moving `cur` into `done`, and the final `pop_back` of an
empty last tuple becomes dropping an empty `cur`. -/

/-- Flushing the pending token buffer: trim it and append it to the current
tuple when non-empty (`if (s.size()) tuples.back().push_back(s)`). -/
def flushTok (ss : List Char) (cur : List (List Char)) : List (List Char) :=
  let s := trimC ss
  if s = [] then cur else cur ++ [s]

/-- Final step of the loop (`i == str.end()`): flush the pending token and
drop the last tuple when it stayed empty (`tuples.pop_back()`). -/
def splitEnd (ss : List Char) (cur : List (List Char))
    (done : List (List (List Char))) : List (List (List Char)) :=
  let cur1 := flushTok ss cur
  if cur1 = [] then done else done ++ [cur1]

/-- The scanning loop of `SplitEscapedString` (tokens as `List Char`).  A
backslash whose successor is not escapable is pushed together with that
successor (in the source the successor is re-examined on the next iteration,
where it necessarily falls into the plain-character branch, since it is
neither a separator nor a backslash). -/
def splitLoopC (sepI sepO : Char) :
    List Char → List Char → List (List Char) → List (List (List Char)) →
    List (List (List Char))
  | [], ss, cur, done => splitEnd ss cur done
  | c :: rest, ss, cur, done =>
      if c = sepI ∨ (sepO ≠ nulChar ∧ c = sepO) then
        let cur1 := flushTok ss cur
        if (sepO ≠ nulChar ∧ c = sepO) ∧ cur1 ≠ [] then
          splitLoopC sepI sepO rest [] [] (done ++ [cur1])
        else
          splitLoopC sepI sepO rest [] cur1 done
      else if c = '\\' then
        match rest with
        | [] => splitEnd (ss ++ [c]) cur done
        | d :: rest2 =>
          if d = '\\' ∨ d = sepI ∨ (sepO ≠ nulChar ∧ d = sepO) then
            splitLoopC sepI sepO rest2 (ss ++ [d]) cur done
          else
            -- backslash without escape goes into the string
            splitLoopC sepI sepO rest2 (ss ++ [c, d]) cur done
      else
        splitLoopC sepI sepO rest (ss ++ [c]) cur done

/-- Embedding of `SplitEscapedString(str, tuples, sep_inner, sep_outer)`. -/
def SplitEscapedString (str : String) (sepInner sepOuter : Char) :
    List (List String) :=
  (splitLoopC sepInner sepOuter str.data [] [] []).map (·.map String.mk)

/-- The single-separator overload `SplitEscapedString(str, tuple, sep)`:
split with no outer separator and keep the front tuple. -/
def SplitEscapedSingle (str : String) (sep : Char) : List String :=
  match splitLoopC sep nulChar str.data [] [] [] with
  | [] => []
  | t :: _ => t.map String.mk

/-- Token escaping inside `MergeEscapeStrings`: double backslashes, then
escape the inner separator, then (when an outer separator is in use) the outer
separator. -/
def escTokC (sepI sepO : Char) (s : List Char) : List Char :=
  let e1 := replaceAllC '\\' ['\\', '\\'] s
  let e2 := replaceAllC sepI ['\\', sepI] e1
  if sepO ≠ nulChar then replaceAllC sepO ['\\', sepO] e2 else e2

/-- Embedding of `List.intercalate` on character lists, named locally to keep the merge
loop explicit. -/
def intercalateC (sep : List Char) : List (List Char) → List Char
  | [] => []
  | [x] => x
  | x :: y :: rest => x ++ sep ++ intercalateC sep (y :: rest)

/-- One tuple of `MergeEscapeStrings`: every token (also empty ones) is
escaped and the tokens are joined by the inner separator (the `first_inner`
flag of the source). -/
def mergeTupleC (sepI sepO : Char) (t : List (List Char)) : List Char :=
  intercalateC [sepI] (t.map (escTokC sepI sepO))

/-- Embedding of `MergeEscapeStrings` core.  The `first_outer` flag plus the
`if (tuple.size())` guard of the source emit the outer separator exactly
between non-empty tuples, i.e. intercalate over the non-empty tuples; the
`if (!sep_outer) break` at the end of the first iteration restricts the
no-outer-separator mode to the first tuple. -/
def mergeC (sepI sepO : Char) (ts : List (List (List Char))) : List Char :=
  if sepO = nulChar then
    match ts with
    | [] => []
    | t :: _ => mergeTupleC sepI sepO t
  else
    intercalateC [sepO] ((ts.filter (fun t => !List.isEmpty t)).map (mergeTupleC sepI sepO))

/-- Embedding of `MergeEscapeStrings(tuples, sep_inner, sep_outer)`. -/
def MergeEscapeStrings (tuples : List (List String)) (sepInner sepOuter : Char) :
    String :=
  String.mk (mergeC sepInner sepOuter (tuples.map (fun t => t.map String.data)))

/-! ### getline-style splitting and flag parsing -/

/-- Worker for `getlineList`: `acc` is the partial token read so far. -/
def getlineGo (sep : Char) : List Char → List Char → List String
  | [], acc => [String.mk acc]
  | c :: rest, acc =>
    if c = sep then
      String.mk acc :: (if rest.isEmpty then [] else getlineGo sep rest [])
    else getlineGo sep rest (acc ++ [c])

/-- Embedding of `std::getline(ss, tok, sep)` looping until EOF: a trailing separator does
not produce a final empty token, but separators elsewhere do, and an empty
input produces no token at all. -/
def getlineList (sep : Char) (s : List Char) : List String :=
  if s.isEmpty then [] else getlineGo sep s []

/-- Lookup loop of `StringParseFlags`: each trimmed name must appear in the
table; its mask bits are OR-ed into the accumulator. -/
def parseFlagsGo (names : List (Nat × String)) : List String → Nat → Except EError Nat
  | [], acc => .ok acc
  | tok :: rest, acc =>
    match names.find? (fun n => n.2 = StringTrim tok) with
    | some n => parseFlagsGo names rest (acc ||| n.1)
    | none => .error .InvalidValue

/-- Embedding of `StringParseFlags`. -/
def StringParseFlags (str : String) (names : List (Nat × String)) (sep : Char) :
    Except EError Nat :=
  parseFlagsGo names (getlineList sep str.data) 0

/-! ### Numeric parsing

`StringToValue` calls the C library `strtod`, producing a C `double`.  The
porto property code only ever compares these values, negates them, divides by
the constant 100 and multiplies by an integer core count or a power of two —
all operations that are exact on the decimal literals the value grammar
admits.  We model the value as an exact unreduced fraction `DVal` with a
positive denominator (IEEE rounding of non-representable decimals is the only
deviation, and it cannot change any comparison the code performs on the
short decimal literals of the property grammar). -/

/-- Exact value of a parsed C `double`. -/
structure DVal where
  num : Int
  den : Nat
  deriving DecidableEq, Repr

/-- Embedding of `a < b` on parsed values (denominators are positive by construction). -/
def DVal.ltB (a b : DVal) : Bool := a.num * (b.den : Int) < b.num * (a.den : Int)

/-- Embedding of `a > b`. -/
def DVal.gtB (a b : DVal) : Bool := DVal.ltB b a

/-- Numeric equality of parsed values (C `==` on doubles). -/
def DVal.eqvB (a b : DVal) : Bool := a.num * (b.den : Int) = b.num * (a.den : Int)

/-- Embedding of `a < 0`. -/
def DVal.isNegB (a : DVal) : Bool := a.num < 0

/-- Embedding of `a / d * m` (exact; used for percent-of-cores). -/
def DVal.divMul (a : DVal) (d m : Nat) : DVal := ⟨a.num * (m : Int), a.den * d⟩

/-- The C++ conversion `(uint64_t)(value * 2^m)`: exact product truncated
toward zero (negative or out-of-range values are undefined behaviour in the
source; the model clamps at 0 and wraps at 2^64). -/
def DVal.mulPow2ToU64 (a : DVal) (m : Nat) : Nat :=
  (((a.num * ((2 : Int) ^ m)).tdiv (a.den : Int)).toNat) % 2 ^ 64

def digitsVal (l : List Char) : Nat :=
  l.foldl (fun acc c => acc * 10 + (c.toNat - '0'.toNat)) 0

/-- The fragment of `strtod` used by the porto value grammar: optional leading
whitespace and sign, decimal digits with an optional fractional part; returns
the value and the unconsumed rest, or `none` when no conversion was performed
(the source's hex/exponent/infinity forms are produced by no porto value
syntax). -/
def strtodD (s : List Char) : Option (DVal × List Char) :=
  let s1 := s.dropWhile isSpaceC
  let (neg, s2) :=
    match s1 with
    | '-' :: r => (true, r)
    | '+' :: r => (false, r)
    | _ => (false, s1)
  let intPart := s2.takeWhile (·.isDigit)
  let s3 := s2.dropWhile (·.isDigit)
  let (fracPart, s4) :=
    match s3 with
    | '.' :: r => (r.takeWhile (·.isDigit), r.dropWhile (·.isDigit))
    | _ => ([], s3)
  if intPart = [] ∧ fracPart = [] then none
  else
    let n : Int := (digitsVal intPart * 10 ^ fracPart.length + digitsVal fracPart : Nat)
    some (⟨if neg then -n else n, 10 ^ fracPart.length⟩, s4)

/-- Embedding of `StringToValue`: numeric prefix plus the rest stripped of blanks on both
sides as the unit. -/
def StringToValue (str : String) : Except EError (DVal × String) :=
  match strtodD str.data with
  | none => .error .InvalidValue
  | some (v, rest) =>
    let rest1 := rest.dropWhile isBlankC
    let rest2 := (rest1.reverse.dropWhile isBlankC).reverse
    .ok (v, String.mk rest2)

def sizeUnits : List Char := ['B', 'K', 'M', 'G', 'T', 'P', 'E']

/-- Embedding of `unit[k]` on a `std::string`: the terminating NUL is readable. -/
def charAt (l : List Char) (k : Nat) : Char := l.getD k nulChar

/-- Embedding of `StringToSize`: number with optional unit; `K`, `Kb`, `kB`, `KiB` (and the
same for the other units) are accepted, a bare `B`/`b` means bytes. -/
def StringToSize (str : String) : Except EError Nat :=
  match StringToValue str with
  | .error e => .error e
  | .ok (value, unit) =>
    match unit.data with
    | [] => .ok (value.mulPow2ToU64 0)
    | u0 :: _ =>
      match sizeUnits.findIdx? (fun c => u0 = c ∨ u0 = c.toLower) with
      | none => .error .InvalidValue
      | some i =>
        let size := value.mulPow2ToU64 (10 * i)
        let u1 := charAt unit.data 1
        let u2 := charAt unit.data 2
        if u1 = nulChar then .ok size
        else if u1 = 'b' ∨ u1 = 'B' then
          if i ≠ 0 ∧ u2 = nulChar then .ok size else .error .InvalidValue
        else if u1 = 'i' then
          if i ≠ 0 ∧ u2 = 'B' then .ok size else .error .InvalidValue
        else .error .InvalidValue

/-- Embedding of `StringToCpuValue`: percent of host cores without unit, absolute cores
with suffix `c`; negative values rejected. -/
def StringToCpuValue (numCores : Nat) (str : String) : Except EError DVal :=
  match StringToValue str with
  | .error _ => .error .InvalidValue
  | .ok (val, unit) =>
    if val.isNegB then .error .InvalidValue
    else
      match (if unit = "" then some (val.divMul 100 numCores)
             else if unit = "c" then some val else none) with
      | none => .error .InvalidValue
      | some value =>
        if value.isNegB then .error .InvalidValue else .ok value

/-! ### String maps (`std::map<std::string, std::string>` as a sorted
association list) -/

def mapInsert (k v : String) : List (String × String) → List (String × String)
  | [] => [(k, v)]
  | (k1, v1) :: rest =>
    match compare k k1 with
    | .eq => (k, v) :: rest
    | .lt => (k, v) :: (k1, v1) :: rest
    | .gt => (k1, v1) :: mapInsert k v rest

def mapErase (k : String) (m : List (String × String)) : List (String × String) :=
  m.filter (fun p => p.1 ≠ k)

def mapFind (k : String) (m : List (String × String)) : Option String :=
  (m.find? (fun p => p.1 = k)).map (·.2)

def stringMapGo : List String → List (String × String) → Except EError (List (String × String))
  | [], acc => .ok acc
  | line :: rest, acc =>
    match SplitEscapedSingle line ':' with
    | [k0, v0] => stringMapGo rest (mapInsert (StringTrim k0) (StringTrim v0) acc)
    | _ => .error .InvalidValue

/-- Embedding of `StringToStringMap`: split on `;`, each entry `key: value`, both trimmed,
duplicate keys last-wins. -/
def StringToStringMap (value : String) : Except EError (List (String × String)) :=
  stringMapGo (SplitEscapedSingle value ';') []

/-! ## Controllers (cgroup.hpp is not under src/)

Modelled from the spec: the `CGROUP_*` bit flags and the `ControllersName`
table live in cgroup.hpp / cgroup.cpp, which are not part of src/.  §4.4 of
the spec lists the subsystems a property can activate — memory, cpu, cpuset,
blkio, netcls, devices, pids, hugetlb — as distinct bits of a bitmask. -/

def CGROUP_MEMORY : Nat := 1
def CGROUP_CPU : Nat := 2
def CGROUP_CPUSET : Nat := 4
def CGROUP_BLKIO : Nat := 8
def CGROUP_NETCLS : Nat := 16
def CGROUP_DEVICES : Nat := 32
def CGROUP_PIDS : Nat := 64
def CGROUP_HUGETLB : Nat := 128

/-- Modelled from the spec: the `(mask → name)` table for the controllers
flag codec (§4.1 flag bitmask, §4.4 subsystem list). -/
def ControllersName : List (Nat × String) :=
  [(CGROUP_MEMORY, "memory"), (CGROUP_CPU, "cpu"), (CGROUP_CPUSET, "cpuset"),
   ( CGROUP_BLKIO, "blkio"), (CGROUP_NETCLS, "netcls"),
   (CGROUP_DEVICES, "devices"), (CGROUP_PIDS, "pids"),
   (CGROUP_HUGETLB, "hugetlb")]

/-- The 64-bit complement, the C++ `~` on a `uint64_t` mask. -/
def not64 (x : Nat) : Nat := x ^^^ (2 ^ 64 - 1)

/-! ## Container record and environment -/

/-- The observable per-container fields the embedded properties touch
(`TContainer`).  `parentCpuLimit` is `Parent->CpuLimit` and
`ancestorCapLimits` the list of `CapLimit.Permitted` along the parent chain,
both read-only for the operations embedded here.  `props` is the
`SetProp`/`HasProp` presence bitmap as a duplicate-free list. -/
structure CState where
  state : EContainerState
  controllers : Nat
  requiredControllers : Nat
  memLimit : Nat
  memGuarantee : Nat
  newMemGuarantee : Nat
  cpuLimit : DVal
  parentCpuLimit : DVal
  ulimit : List (String × String)
  bindDns : Bool
  capLimit : Nat
  capAmbient : Nat
  capAllowed : Nat
  virtMode : VirtMode
  ownerIsRoot : Bool
  ancestorCapLimits : List Nat
  oomKilled : Bool
  exitStatus : Nat
  props : List EProperty
  deriving DecidableEq, Repr

/-- Host and client environment (collaborators of §6): the current client's
privilege, host constants from `config()` / `GetTotalMemory` / `GetNumCores`,
the host capability reference sets, and `ParseUlimit` (declared outside src/;
modelled from the spec as an abstract validator: "each entry parses as
resource + soft/hard"). -/
structure Env where
  isSuperUser : Bool
  numCores : Nat
  totalMemory : Nat
  memGuaranteeReserve : Nat
  minMemoryLimit : Nat
  allCapabilities : Nat
  osModeCapabilities : Nat
  suidCapabilities : Nat
  parseUlimit : String → String → Option EError

/-- Embedding of `TContainer::SetProp`. -/
def setProp (ps : List EProperty) (p : EProperty) : List EProperty :=
  if p ∈ ps then ps else ps ++ [p]

/-! ## State guards (`TProperty::IsAliveAndStopped` etc.) -/

def isAliveAndStopped (st : CState) : Option EError :=
  if st.state ≠ .Stopped then some .InvalidState else none

def isAlive (st : CState) : Option EError :=
  if st.state = .Dead then some .InvalidState else none

def isDead (st : CState) : Option EError :=
  if st.state ≠ .Dead then some .InvalidState else none

/-! ## Controller activation (`TProperty::WantControllers`) -/

/-- The mutation `WantControllers` performs in the `Stopped` state. -/
def wcUpd (st : CState) (m : Nat) : CState :=
  { st with controllers := st.controllers ||| m,
            requiredControllers := st.requiredControllers ||| m }

/-- Embedding of `TProperty::WantControllers`: in `Stopped` OR the mask into both
`Controllers` and `RequiredControllers`; otherwise fail with `NotSupported`
when a requested bit is missing from `Controllers`. -/
def wantControllers (st : CState) (m : Nat) : Option EError × CState :=
  if st.state = .Stopped then (none, wcUpd st m)
  else if st.controllers &&& m ≠ m then (some .NotSupported, st)
  else (none, st)

/-! ## Property setters -/

/-- Embedding of `TMemoryLimit::Set`. -/
def memoryLimitSet (env : Env) (st : CState) (limit : String) :
    Option EError × CState :=
  match isAlive st with
  | some e => (some e, st)
  | none =>
    match wantControllers st CGROUP_MEMORY with
    | (some e, st1) => (some e, st1)
    | (none, st1) =>
      match StringToSize limit with
      | .error e => (some e, st1)
      | .ok newSize =>
        if newSize ≠ 0 ∧ newSize < env.minMemoryLimit then
          (some .InvalidValue, st1)
        else if st1.memLimit ≠ newSize then
          (none, { st1 with memLimit := newSize,
                            props := setProp st1.props .MEM_LIMIT })
        else (none, st1)

/-- Embedding of `TCpuLimit::Set`. -/
def cpuLimitSet (env : Env) (st : CState) (limit : String) :
    Option EError × CState :=
  match isAlive st with
  | some e => (some e, st)
  | none =>
    match wantControllers st CGROUP_CPU with
    | (some e, st1) => (some e, st1)
    | (none, st1) =>
      match StringToCpuValue env.numCores limit with
      | .error e => (some e, st1)
      | .ok newLimit =>
        if newLimit.gtB st1.parentCpuLimit ∧ ¬env.isSuperUser then
          (some .InvalidValue, st1)
        else if ¬st1.cpuLimit.eqvB newLimit then
          (none, { st1 with cpuLimit := newLimit,
                            props := setProp st1.props .CPU_LIMIT })
        else (none, st1)

/-- Embedding of `TBindDns::Set`. -/
def bindDnsSet (st : CState) (value : String) : Option EError × CState :=
  match isAliveAndStopped st with
  | some e => (some e, st)
  | none =>
    match StringToBool value with
    | .error e => (some e, st)
    | .ok b => (none, { st with bindDns := b,
                                props := setProp st.props .BIND_DNS })

/-- The `ParseUlimit` validation loop of `TUlimit::Set`. -/
def ulimitCheck (env : Env) : List (String × String) → Option EError
  | [] => none
  | (k, v) :: rest =>
    match env.parseUlimit k v with
    | some e => some e
    | none => ulimitCheck env rest

/-- Embedding of `TUlimit::Set`. -/
def ulimitSet (env : Env) (st : CState) (value : String) :
    Option EError × CState :=
  match isAlive st with
  | some e => (some e, st)
  | none =>
    match StringToStringMap value with
    | .error e => (some e, st)
    | .ok map =>
      match ulimitCheck env map with
      | some e => (some e, st)
      | none => (none, { st with ulimit := map,
                                 props := setProp st.props .ULIMIT })

/-- Embedding of `TUlimit::SetIndexed`.  Note: unlike `TUlimit::Set` (and unlike the
"Dead state 2-line check is mandatory for all properties" comment in the
source), this method performs no state check at all. -/
def ulimitSetIndexed (env : Env) (st : CState) (index value : String) :
    Option EError × CState :=
  if value = "" then
    (none, { st with ulimit := mapErase index st.ulimit,
                     props := setProp st.props .ULIMIT })
  else
    match env.parseUlimit index value with
    | some e => (some e, st)
    | none =>
      (none, { st with ulimit := mapInsert index value st.ulimit,
                       props := setProp st.props .ULIMIT })

/-- Embedding of `TControllers::Set`. -/
def controllersSet (st : CState) (value : String) : Option EError × CState :=
  match isAliveAndStopped st with
  | some e => (some e, st)
  | none =>
    match StringParseFlags value ControllersName ';' with
    | .error e => (some e, st)
    | .ok val =>
      if val &&& st.requiredControllers ≠ st.requiredControllers then
        (some .InvalidValue, st)
      else
        (none, { st with controllers := val,
                         props := setProp st.props .CONTROLLERS })

/-- Embedding of `TControllers::SetIndexed` (the source performs no state check here). -/
def controllersSetIndexed (st : CState) (index value : String) :
    Option EError × CState :=
  match StringParseFlags index ControllersName ';' with
  | .error e => (some e, st)
  | .ok m =>
    match StringToBool value with
    | .error e => (some e, st)
    | .ok enable =>
      let val := if enable then st.controllers ||| m
                 else st.controllers &&& not64 m
      if val &&& st.requiredControllers ≠ st.requiredControllers then
        (some .InvalidValue, st)
      else
        (none, { st with controllers := val,
                         props := setProp st.props .CONTROLLERS })

/-! ## Capabilities -/

/-- Modelled from the spec: the recomputed `CapAllowed` of
`TContainer::SanitizeCapabilities` (container.cpp is not under src/).  Per
§4.2: start from `AllCapabilities` when the owner is host-root, else
`OsModeCapabilities` in Os mode, else `SuidCapabilities`; unless the owner is
host-root, intersect with every ancestor's `CapLimit`. -/
def capAllowedOf (env : Env) (st : CState) : Nat :=
  let base := if st.ownerIsRoot then env.allCapabilities
              else if st.virtMode = VirtMode.Os then env.osModeCapabilities
              else env.suidCapabilities
  if st.ownerIsRoot then base
  else st.ancestorCapLimits.foldl (fun b a => b &&& a) base

/-- Modelled from the spec: `TContainer::SanitizeCapabilities` (container.cpp
is not under src/).  Per §4.6 it recomputes `CapAllowed` and clamps
`CapAmbient` to `CapAllowed`, preserving `CapLimit`. -/
def sanitizeCapabilities (env : Env) (st : CState) : CState :=
  { st with capAllowed := capAllowedOf env st,
            capAmbient := st.capAmbient &&& capAllowedOf env st }

/-- The capability bound computed inside `TCapLimit::CommitLimit`: the
client-derived base set, intersected with every ancestor's `CapLimit` unless
the client is host-root and the owner is host-root. -/
def capBound (env : Env) (st : CState) : Nat :=
  let bound0 := if env.isSuperUser then env.allCapabilities
                else if st.virtMode = VirtMode.Os then env.osModeCapabilities
                else env.suidCapabilities
  -- host root user can allow any capabilities in its own containers
  if ¬env.isSuperUser ∨ ¬st.ownerIsRoot then
    st.ancestorCapLimits.foldl (fun b a => b &&& a) bound0
  else bound0

/-- Embedding of `TCapLimit::CommitLimit`. -/
def commitLimit (env : Env) (st : CState) (limit : Nat) :
    Option EError × CState :=
  match isAliveAndStopped st with
  | some e => (some e, st)
  | none =>
    if limit &&& not64 env.allCapabilities ≠ 0 then (some .InvalidValue, st)
    else if limit &&& not64 (capBound env st) ≠ 0 then (some .Permission, st)
    else
      (none, sanitizeCapabilities env
        { st with capLimit := limit,
                  props := setProp st.props .CAPABILITIES })

/-- Embedding of `TCapAmbient::CommitAmbient`. -/
def commitAmbient (env : Env) (st : CState) (ambient : Nat) :
    Option EError × CState :=
  match isAliveAndStopped st with
  | some e => (some e, st)
  | none =>
    if ambient &&& not64 env.allCapabilities ≠ 0 then (some .InvalidValue, st)
    else if ambient &&& not64 st.capAllowed ≠ 0 ∧ ¬env.isSuperUser then
      (some .Permission, st)
    else if ambient &&& not64 st.capLimit ≠ 0 then
      -- try to raise capabilities limit if required
      match commitLimit env st (st.capLimit ||| ambient) with
      | (some e, _) => (some e, st)
      | (none, st1) =>
        (none, sanitizeCapabilities env
          { st1 with capAmbient := ambient,
                     props := setProp st1.props .CAPABILITIES_AMBIENT })
    else
      (none, sanitizeCapabilities env
        { st with capAmbient := ambient,
                  props := setProp st.props .CAPABILITIES_AMBIENT })

/-! ## Memory guarantee (tree-wide check)

`TMemoryGuarantee::Set` checks the whole container tree through
`RootContainer->GetTotalMemGuarantee()`.  `TContainer::GetTotalMemGuarantee`
lives in container.cpp, which is not under src/; modelled from the spec
("Sum of `MemGuarantee` over the tree + configured reserve ≤ total host
memory", with the container being set contributing its staged
`NewMemGuarantee`): the containers of the tree are a list and the total is
the sum of their staged guarantees (at rest `NewMemGuarantee` equals
`MemGuarantee`). -/

/-- Modelled from the spec: `RootContainer->GetTotalMemGuarantee()`. -/
def GetTotalMemGuarantee (cs : List CState) : Nat :=
  (cs.map (fun c => c.newMemGuarantee)).sum

/-- Embedding of `TMemoryGuarantee::Set` for the container at position `i` of the tree
(an index not naming a container is not a source behaviour and answers
`Unknown` without touching anything). -/
def memoryGuaranteeSet (env : Env) (cs : List CState) (i : Nat)
    (value : String) : Option EError × List CState :=
  match cs[i]? with
  | none => (some .Unknown, cs)
  | some st =>
    match isAlive st with
    | some e => (some e, cs)
    | none =>
      match wantControllers st CGROUP_MEMORY with
      | (some e, st1) => (some e, cs.set i st1)
      | (none, st1) =>
        match StringToSize value with
        | .error e => (some e, cs.set i st1)
        | .ok newVal =>
          let st2 := { st1 with newMemGuarantee := newVal }
          let cs2 := cs.set i st2
          if GetTotalMemGuarantee cs2 + env.memGuaranteeReserve >
              env.totalMemory then
            (some .ResourceNotAvailable,
             cs.set i { st1 with newMemGuarantee := st1.memGuarantee })
          else if st2.memGuarantee ≠ newVal then
            (none, cs.set i { st2 with memGuarantee := newVal,
                                       props := setProp st2.props .MEM_GUARANTEE })
          else (none, cs2)

/-- A container tree at rest: every staged `NewMemGuarantee` equals the
committed `MemGuarantee` (§ design notes: the staging slot is transient and
only differs inside a set operation). -/
def committed (cs : List CState) : Prop :=
  cs.map (fun c => c.memGuarantee) = cs.map (fun c => c.newMemGuarantee)

/-- The committed tree-wide memory guarantee. -/
def treeMemGuarantee (cs : List CState) : Nat :=
  (cs.map (fun c => c.memGuarantee)).sum

/-- Embedding of `Controllers ⊇ RequiredControllers` as a mask equation. -/
def ctlInv (st : CState) : Prop :=
  st.controllers &&& st.requiredControllers = st.requiredControllers

/-! ## Concrete host and container instances

Used by the concrete scenarios of the spec and as witness inputs. -/

/-- A concrete host/client environment: unprivileged client, 4 cores, 100
bytes of memory with a 10-byte guarantee reserve, ambient-capable host whose
suid capability set contains NET_BIND_SERVICE (bit 10) and NET_ADMIN
(bit 12), and a ulimit grammar that accepts everything. -/
def testEnv : Env :=
  { isSuperUser := false, numCores := 4, totalMemory := 100,
    memGuaranteeReserve := 10, minMemoryLimit := 0,
    allCapabilities := 2 ^ 40 - 1,
    osModeCapabilities := 2 ^ 10 ||| 2 ^ 12,
    suidCapabilities := 2 ^ 10 ||| 2 ^ 12,
    parseUlimit := fun _ _ => none }

/-- A concrete stopped container: no controllers yet, `cap_limit` holding
only NET_ADMIN (bit 12), `CapAllowed` containing NET_BIND_SERVICE (bit 10),
parent cpu limit of one core. -/
def testCt : CState :=
  { state := .Stopped, controllers := 0, requiredControllers := 0,
    memLimit := 0, memGuarantee := 0, newMemGuarantee := 0,
    cpuLimit := ⟨1, 1⟩, parentCpuLimit := ⟨1, 1⟩, ulimit := [],
    bindDns := false, capLimit := 2 ^ 12, capAmbient := 0,
    capAllowed := 2 ^ 10 ||| 2 ^ 12, virtMode := .App, ownerIsRoot := false,
    ancestorCapLimits := [2 ^ 40 - 1], oomKilled := false, exitStatus := 0,
    props := [] }

/-! ## Read-only exit code (`TExitCodeProperty::Get`) -/

/-- glibc `WIFSIGNALED`: the low seven bits are neither 0 (normal exit) nor
0x7f (stopped). -/
def wIfSignaled (status : Nat) : Bool :=
  status &&& 0x7f ≠ 0 ∧ status &&& 0x7f ≠ 0x7f

/-- glibc `WTERMSIG`. -/
def wTermSig (status : Nat) : Nat := status &&& 0x7f

/-- glibc `WEXITSTATUS`. -/
def wExitStatus (status : Nat) : Nat := (status >>> 8) &&& 0xff

/-- Embedding of `TExitCodeProperty::Get`. -/
def exitCodeGet (st : CState) : Except EError String :=
  match isDead st with
  | some e => .error e
  | none =>
    if st.oomKilled then .ok "-99"
    else if wIfSignaled st.exitStatus then
      .ok (toString (-(wTermSig st.exitStatus : Int)))
    else .ok (toString (wExitStatus st.exitStatus))

/-! ## Characterisations used for the split/merge round trip (inner
separator ' ', outer separator ';') -/

/-- Character-level escaping at the usual separators: the net effect of the
three sequential `StringReplaceAll` passes of `MergeEscapeStrings`. -/
def escC (c : Char) : List Char :=
  if c = '\\' ∨ c = ' ' ∨ c = ';' then ['\\', c] else [c]

/-- The map of `escC` over a token. -/
def escAll : List Char → List Char
  | [] => []
  | c :: t => escC c ++ escAll t

/-- A well-formed token: non-empty and invariant under trimming. -/
def wfTokenC (t : List Char) : Prop := t ≠ [] ∧ trimC t = t

/-- Well-formed tuples: no empty tuple, every token well-formed. -/
def wfTuplesC (ts : List (List (List Char))) : Prop :=
  ∀ T ∈ ts, T ≠ [] ∧ ∀ t ∈ T, wfTokenC t

/-- Well-formed tuples of strings. -/
def wfTuplesS (ts : List (List String)) : Prop :=
  ∀ T ∈ ts, T ≠ [] ∧ ∀ s ∈ T, s ≠ "" ∧ StringTrim s = s

/-! # Theorems -/

/-! ## Bitmask helper lemmas -/

theorem testBit_ge64_false {a : Nat} (ha : a < 2 ^ 64) {i : Nat}
    (hi : 64 ≤ i) : a.testBit i = false :=
  Nat.testBit_lt_two_pow
    (lt_of_lt_of_le ha (Nat.pow_le_pow_right (by norm_num) hi))

/-- For a 64-bit value, `a & ~l == 0` means `a` is a sub-mask of `l`. -/
theorem land_self_of_not64 {a l : Nat} (ha : a < 2 ^ 64)
    (h : a &&& not64 l = 0) : a &&& l = a := by
  apply Nat.eq_of_testBit_eq
  intro i
  have hb := congrArg (fun y => Nat.testBit y i) h
  simp only [not64, Nat.testBit_and, Nat.testBit_xor, Nat.zero_testBit] at hb
  simp only [Nat.testBit_and]
  by_cases hi : i < 64
  · rw [Nat.testBit_two_pow_sub_one] at hb
    have hd : decide (i < 64) = true := by simp [hi]
    rw [hd] at hb
    cases hA : a.testBit i <;> cases hL : l.testBit i <;> simp_all
  · have hz : a.testBit i = false := testBit_ge64_false ha (le_of_not_lt hi)
    simp [hz]

theorem land_absorb {a x l : Nat} (h : a &&& l = a) :
    (a &&& x) &&& l = a &&& x := by
  apply Nat.eq_of_testBit_eq
  intro i
  have hb := congrArg (fun y => Nat.testBit y i) h
  simp only [Nat.testBit_and] at hb ⊢
  cases hA : a.testBit i <;> cases hX : x.testBit i <;>
    cases hL : l.testBit i <;> simp_all

theorem land_lor_absorb {a x l : Nat} :
    (a &&& x) &&& (l ||| a) = a &&& x := by
  apply Nat.eq_of_testBit_eq
  intro i
  simp only [Nat.testBit_and, Nat.testBit_or]
  cases a.testBit i <;> cases x.testBit i <;> cases l.testBit i <;> simp

theorem land_lor_self {a l : Nat} : a &&& (l ||| a) = a := by
  apply Nat.eq_of_testBit_eq
  intro i
  simp only [Nat.testBit_and, Nat.testBit_or]
  cases a.testBit i <;> cases l.testBit i <;> simp

/-- Applying `SanitizeCapabilities` preserves "ambient is a sub-mask of limit". -/
theorem sanitize_pres_sub (env : Env) (st : CState)
    (h : st.capAmbient &&& st.capLimit = st.capAmbient) :
    (sanitizeCapabilities env st).capAmbient &&&
        (sanitizeCapabilities env st).capLimit =
      (sanitizeCapabilities env st).capAmbient := by
  simp only [sanitizeCapabilities]
  exact land_absorb h

theorem lor_land_lor {c r m : Nat} (h : c &&& r = r) :
    (c ||| m) &&& (r ||| m) = r ||| m := by
  apply Nat.eq_of_testBit_eq
  intro i
  have hb := congrArg (fun y => Nat.testBit y i) h
  simp only [Nat.testBit_and, Nat.testBit_or] at hb ⊢
  cases hC : c.testBit i <;> cases hR : r.testBit i <;>
    cases hM : m.testBit i <;> simp_all

/-! ## Helper lemmas about the operations -/

/-- The three possible outcomes of `WantControllers`. -/
theorem wantControllers_cases (st : CState) (m : Nat) :
    wantControllers st m = (none, wcUpd st m) ∨
    wantControllers st m = (some .NotSupported, st) ∨
    wantControllers st m = (none, st) := by
  unfold wantControllers
  by_cases h : st.state = .Stopped
  · simp [h]
  · by_cases h2 : st.controllers &&& m ≠ m <;> simp [h, h2]

/-- A successful `CommitLimit` stores exactly the requested mask (and then
sanitizes the derived state). -/
theorem commitLimit_ok (env : Env) (st : CState) (l : Nat)
    (h : (commitLimit env st l).1 = none) :
    (commitLimit env st l).2 =
      sanitizeCapabilities env
        { st with capLimit := l, props := setProp st.props .CAPABILITIES } := by
  rcases hg : isAliveAndStopped st with _ | e
  · by_cases h1 : l &&& not64 env.allCapabilities ≠ 0
    · simp [commitLimit, hg, h1] at h
    · by_cases h2 : l &&& not64 (capBound env st) ≠ 0
      · simp [commitLimit, hg, h1, h2] at h
      · simp [commitLimit, hg, h1, h2]
  · simp [commitLimit, hg] at h

/-- A failed `CommitLimit` leaves the container unchanged. -/
theorem commitLimit_err (env : Env) (st : CState) (l : Nat)
    (h : (commitLimit env st l).1 ≠ none) :
    (commitLimit env st l).2 = st := by
  rcases hg : isAliveAndStopped st with _ | e
  · by_cases h1 : l &&& not64 env.allCapabilities ≠ 0
    · simp [commitLimit, hg, h1]
    · by_cases h2 : l &&& not64 (capBound env st) ≠ 0
      · simp [commitLimit, hg, h1, h2]
      · simp [commitLimit, hg, h1, h2] at h
  · simp [commitLimit, hg]

theorem list_set_self {α : Type} (l : List α) (i : Nat) (a : α)
    (h : l[i]? = some a) : l.set i a = l := by
  induction l generalizing i with
  | nil => simp at h
  | cons x xs ih =>
    cases i with
    | zero =>
      simp only [List.getElem?_cons_zero, Option.some.injEq] at h
      simp [List.set, h]
    | succ n =>
      simp only [List.getElem?_cons_succ] at h
      simp [List.set, ih n h]

theorem cstate_new_eq (st : CState) (h : st.newMemGuarantee = st.memGuarantee) :
    ({ st with newMemGuarantee := st.memGuarantee } : CState) = st := by
  cases st
  simp_all

/-- C2: for every container and every controller mask requested by a property
setter, `WantControllers` in the `Stopped` state ORs the mask into both
`Controllers` and `RequiredControllers` and succeeds (so the operation
proceeds); in any other state, whenever some requested bit is not already in
`Controllers`, it returns `NotSupported` and does not modify the
container. -/
theorem c2_want_controllers (st : CState) (m : Nat) :
    (st.state = .Stopped →
      wantControllers st m =
        (none, { st with controllers := st.controllers ||| m,
                         requiredControllers := st.requiredControllers ||| m })) ∧
    (st.state ≠ .Stopped → st.controllers &&& m ≠ m →
      wantControllers st m = (some .NotSupported, st)) := by
  constructor
  · intro h
    simp [wantControllers, wcUpd, h]
  · intro h hm
    simp [wantControllers, h, hm]

/-- Witness for `c2_want_controllers` at a stopped and at a running
container. -/
theorem c2_want_controllers_witness :
    wantControllers testCt CGROUP_CPU =
      (none, { testCt with controllers := testCt.controllers ||| CGROUP_CPU,
                           requiredControllers :=
                             testCt.requiredControllers ||| CGROUP_CPU }) ∧
    wantControllers { testCt with state := .Running } CGROUP_CPU =
      (some .NotSupported, { testCt with state := .Running }) :=
  ⟨(c2_want_controllers testCt CGROUP_CPU).1 (by decide),
   (c2_want_controllers { testCt with state := .Running } CGROUP_CPU).2
     (by decide) (by decide)⟩

/-- C6: for a non-superuser principal, setting `cpu_limit` on a container
whose parsed value exceeds the parent's `CpuLimit` returns `InvalidValue` and
leaves the child's `CpuLimit` unchanged; for a superuser the same set is not
rejected by this bound (it succeeds). -/
theorem c6_cpu_limit_parent_bound (env : Env) (st : CState) (v : String)
    (q : DVal)
    (hAlive : st.state ≠ .Dead)
    (hCtl : st.state = .Stopped ∨ st.controllers &&& CGROUP_CPU = CGROUP_CPU)
    (hParse : StringToCpuValue env.numCores v = .ok q)
    (hGt : q.gtB st.parentCpuLimit = true) :
    (env.isSuperUser = false →
      (cpuLimitSet env st v).1 = some .InvalidValue ∧
      (cpuLimitSet env st v).2.cpuLimit = st.cpuLimit) ∧
    (env.isSuperUser = true → (cpuLimitSet env st v).1 = none) := by
  have hA : isAlive st = none := by simp [isAlive, hAlive]
  rcases hCtl with hS | hC
  · have hW : wantControllers st CGROUP_CPU = (none, wcUpd st CGROUP_CPU) := by
      simp [wantControllers, hS]
    constructor
    · intro hSU
      simp [cpuLimitSet, hA, hW, hParse, hGt, hSU, wcUpd]
    · intro hSU
      simp only [cpuLimitSet, hA, hW, hParse, hGt, hSU]
      simp only [not_true_eq_false, and_false, if_false]
      split <;> simp
  · by_cases hS : st.state = .Stopped
    · have hW : wantControllers st CGROUP_CPU = (none, wcUpd st CGROUP_CPU) := by
        simp [wantControllers, hS]
      constructor
      · intro hSU
        simp [cpuLimitSet, hA, hW, hParse, hGt, hSU, wcUpd]
      · intro hSU
        simp only [cpuLimitSet, hA, hW, hParse, hGt, hSU]
        simp only [not_true_eq_false, and_false, if_false]
        split <;> simp
    · have hW : wantControllers st CGROUP_CPU = (none, st) := by
        simp [wantControllers, hS, hC]
      constructor
      · intro hSU
        simp [cpuLimitSet, hA, hW, hParse, hGt, hSU]
      · intro hSU
        simp only [cpuLimitSet, hA, hW, hParse, hGt, hSU]
        simp only [not_true_eq_false, and_false, if_false]
        split <;> simp

/-- Witness for `c6_cpu_limit_parent_bound`: a running container with the CPU
controller enabled and a one-core parent limit; "2c" parses to two cores. -/
theorem c6_cpu_limit_parent_bound_witness :
    ((cpuLimitSet testEnv
        { testCt with state := .Running, controllers := CGROUP_CPU } "2c").1 =
        some .InvalidValue ∧
      (cpuLimitSet testEnv
        { testCt with state := .Running, controllers := CGROUP_CPU } "2c").2.cpuLimit =
        ({ testCt with state := .Running, controllers := CGROUP_CPU } : CState).cpuLimit) ∧
    (cpuLimitSet { testEnv with isSuperUser := true }
        { testCt with state := .Running, controllers := CGROUP_CPU } "2c").1 = none :=
  ⟨(c6_cpu_limit_parent_bound testEnv
      { testCt with state := .Running, controllers := CGROUP_CPU } "2c" ⟨2, 1⟩
      (by decide) (Or.inr (by decide)) (by decide) (by decide)).1 (by decide),
   (c6_cpu_limit_parent_bound { testEnv with isSuperUser := true }
      { testCt with state := .Running, controllers := CGROUP_CPU } "2c" ⟨2, 1⟩
      (by decide) (Or.inr (by decide)) (by decide) (by decide)).2 (by decide)⟩

/-- C7: the `Alive` guard on ulimit is enforced by the whole-map set, but
`TUlimit::SetIndexed` omits the state check: on a `Dead` container the
indexed set succeeds and mutates the `Ulimit` map, both for insertion and for
deletion through an empty value — contradicting the source's own "Dead state
2-line check is mandatory for all properties" note and the declared `Alive`
guard. -/
theorem c7_ulimit_dead_set_indexed_mutates :
    (ulimitSet testEnv { testCt with state := .Dead } "nofile: 10 20" =
      (some .InvalidState, { testCt with state := .Dead })) ∧
    (ulimitSetIndexed testEnv { testCt with state := .Dead } "nofile" "10 20" =
      (none, { testCt with state := .Dead,
                           ulimit := [("nofile", "10 20")],
                           props := [.ULIMIT] })) ∧
    (ulimitSetIndexed testEnv
        { testCt with state := .Dead, ulimit := [("nofile", "10 20")] }
        "nofile" "" =
      (none, { testCt with state := .Dead, props := [.ULIMIT] })) := by
  decide

/-- C9 counterexample: the claim says a boolean-typed property set with a
string other than "true"/"false" fails with `InvalidValue`; `bind_dns` set
with "1" fails with kind `Unknown` instead. -/
theorem c9_counterexample :
    (bindDnsSet testCt "1").1.isSome = true ∧
    (bindDnsSet testCt "1").1 ≠ some .InvalidValue := by
  decide

/-- C9 (amended): `bind_dns` set with the literal "true" stores true, with
"false" stores false, and with any other string fails with error kind
`Unknown` (the kind `StringToBool` reports), leaving the container
unchanged. -/
theorem c9_bool_property_set (st : CState) (v : String)
    (h : st.state = .Stopped) :
    bindDnsSet st "true" =
      (none, { st with bindDns := true, props := setProp st.props .BIND_DNS }) ∧
    bindDnsSet st "false" =
      (none, { st with bindDns := false, props := setProp st.props .BIND_DNS }) ∧
    (v ≠ "true" → v ≠ "false" → bindDnsSet st v = (some .Unknown, st)) := by
  refine ⟨?_, ?_, ?_⟩
  · simp [bindDnsSet, isAliveAndStopped, h, StringToBool]
  · simp [bindDnsSet, isAliveAndStopped, h, StringToBool]
  · intro h1 h2
    simp [bindDnsSet, isAliveAndStopped, h, StringToBool, h1, h2]

/-- Witness for `c9_bool_property_set` at the concrete stopped container and
the rejected string "1". -/
theorem c9_bool_property_set_witness :
    bindDnsSet testCt "true" =
      (none, { testCt with bindDns := true,
                           props := setProp testCt.props .BIND_DNS }) ∧
    bindDnsSet testCt "1" = (some .Unknown, testCt) :=
  ⟨(c9_bool_property_set testCt "1" (by decide)).1,
   (c9_bool_property_set testCt "1" (by decide)).2.2 (by decide) (by decide)⟩

/-- C10: reading `exit_code` in a non-`Dead` state returns `InvalidState`;
on a `Dead` container it returns "-99" whenever `OomKilled` is set, otherwise
the negated signal number when the stored wait status encodes termination by
a signal, and otherwise the wait-status exit code. -/
theorem c10_exit_code (st : CState) :
    (st.state ≠ .Dead → exitCodeGet st = .error .InvalidState) ∧
    (st.state = .Dead → st.oomKilled = true → exitCodeGet st = .ok "-99") ∧
    (st.state = .Dead → st.oomKilled = false →
      wIfSignaled st.exitStatus = true →
      exitCodeGet st = .ok (toString (-(wTermSig st.exitStatus : Int)))) ∧
    (st.state = .Dead → st.oomKilled = false →
      wIfSignaled st.exitStatus = false →
      exitCodeGet st = .ok (toString (wExitStatus st.exitStatus))) := by
  refine ⟨?_, ?_, ?_, ?_⟩
  · intro h
    simp [exitCodeGet, isDead, h]
  · intro h ho
    simp [exitCodeGet, isDead, h, ho]
  · intro h ho hs
    simp [exitCodeGet, isDead, h, ho, hs]
  · intro h ho hs
    simp [exitCodeGet, isDead, h, ho, hs]

/-- Witness for `c10_exit_code`: the spec's concrete mapping — status `0x8B`
(signal 11) gives "-11", the OOM flag gives "-99", status `0x2A00` gives
"42", and a running container gets `InvalidState`. -/
theorem c10_exit_code_witness :
    exitCodeGet { testCt with state := .Dead, exitStatus := 0x8B } = .ok "-11" ∧
    exitCodeGet { testCt with state := .Dead, exitStatus := 0x8B, oomKilled := true } = .ok "-99" ∧
    exitCodeGet { testCt with state := .Dead, exitStatus := 0x2A00 } = .ok "42" ∧
    exitCodeGet { testCt with state := .Running } = .error .InvalidState := by
  refine ⟨?_, ?_, ?_, ?_⟩
  · have h := (c10_exit_code { testCt with state := .Dead, exitStatus := 0x8B }).2.2.1
      (by decide) (by decide) (by decide)
    simpa using h
  · exact (c10_exit_code
      { testCt with state := .Dead, exitStatus := 0x8B, oomKilled := true }).2.1
      (by decide) (by decide)
  · have h := (c10_exit_code { testCt with state := .Dead, exitStatus := 0x2A00 }).2.2.2
      (by decide) (by decide) (by decide)
    simpa using h
  · exact (c10_exit_code { testCt with state := .Running }).1 (by decide)

/-- C5: after a successful `capabilities_ambient` set the stored
`CapAmbient` set is a sub-mask of `CapLimit` (the setter widening `CapLimit`
through `CommitLimit` when needed); concretely, on the stopped test container
with `cap_limit = 2^12` (NET_ADMIN) and `CapAllowed ∋ 2^10`
(NET_BIND_SERVICE), setting ambient `2^10` succeeds and the resulting
`cap_limit` contains `2^10`. -/
theorem c5_ambient_widens_limit :
    (∀ (env : Env) (st : CState) (a : Nat), a < 2 ^ 64 →
      (commitAmbient env st a).1 = none →
      (commitAmbient env st a).2.capAmbient &&&
          (commitAmbient env st a).2.capLimit =
        (commitAmbient env st a).2.capAmbient) ∧
    ((commitAmbient testEnv testCt (2 ^ 10)).1 = none ∧
      (commitAmbient testEnv testCt (2 ^ 10)).2.capLimit &&& 2 ^ 10 = 2 ^ 10) := by
  constructor
  · intro env st a ha h
    rcases hg : isAliveAndStopped st with _ | e
    · by_cases h1 : a &&& not64 env.allCapabilities ≠ 0
      · simp only [commitAmbient, hg] at h
        rw [if_pos h1] at h
        simp at h
      · by_cases h2 : a &&& not64 st.capAllowed ≠ 0 ∧ ¬env.isSuperUser
        · simp only [commitAmbient, hg] at h
          rw [if_neg h1, if_pos h2] at h
          simp at h
        · by_cases h3 : a &&& not64 st.capLimit ≠ 0
          · rcases hcl : commitLimit env st (st.capLimit ||| a) with ⟨e1, st1⟩
            cases e1 with
            | some e =>
              simp only [commitAmbient, hg] at h
              rw [if_neg h1, if_neg h2, if_pos h3, hcl] at h
              simp at h
            | none =>
              have hok := commitLimit_ok env st (st.capLimit ||| a)
                (by rw [hcl])
              rw [hcl] at hok
              have hok2 : st1 = sanitizeCapabilities env
                  { st with capLimit := st.capLimit ||| a,
                            props := setProp st.props .CAPABILITIES } := hok
              have hlim : st1.capLimit = st.capLimit ||| a := by
                rw [hok2]; rfl
              simp only [commitAmbient, hg]
              rw [if_neg h1, if_neg h2, if_pos h3, hcl]
              exact sanitize_pres_sub env _
                (show a &&& st1.capLimit = a by rw [hlim]; exact land_lor_self)
          · have h3' : a &&& not64 st.capLimit = 0 := by
              simpa using h3
            have hsub : a &&& st.capLimit = a := land_self_of_not64 ha h3'
            simp only [commitAmbient, hg]
            rw [if_neg h1, if_neg h2, if_neg h3]
            exact sanitize_pres_sub env _ (show a &&& st.capLimit = a from hsub)
    · simp [commitAmbient, hg] at h
  · constructor
    · decide
    · decide

/-- Witness for `c5_ambient_widens_limit`, applying the universal part at the
concrete ambient set `2^10` on the test container. -/
theorem c5_ambient_widens_limit_witness :
    (commitAmbient testEnv testCt (2 ^ 10)).2.capAmbient &&&
        (commitAmbient testEnv testCt (2 ^ 10)).2.capLimit =
      (commitAmbient testEnv testCt (2 ^ 10)).2.capAmbient :=
  c5_ambient_widens_limit.1 testEnv testCt (2 ^ 10) (by decide) (by decide)

/-- C1 counterexample: the claim says every failed set leaves the container
record unchanged in all observable fields; but `TMemoryLimit::Set` calls
`WantControllers` before parsing, so on the stopped test container the
unparsable value "10x" produces an error while `Controllers` (and
`RequiredControllers`) have already been enlarged. -/
theorem c1_counterexample :
    (memoryLimitSet testEnv testCt "10x").1.isSome = true ∧
    (memoryLimitSet testEnv testCt "10x").2 ≠ testCt := by
  decide

/-- C1 (amended): if a property setter returns an error, the container record
is unchanged in every observable field except that `Controllers` and
`RequiredControllers` may already have been OR-ed with the setter's
controller mask (which happens when the container was `Stopped`); in
particular a set whose value fails to parse leaves every other field exactly
as it was.  For the tree-wide memory-guarantee setter the statement holds for
trees at rest (`committed`), the staging slot being restored on failure. -/
theorem c1_failed_set_preserves_record :
    (∀ env st v, (memoryLimitSet env st v).1 ≠ none →
      (memoryLimitSet env st v).2 = st ∨
      (memoryLimitSet env st v).2 = wcUpd st CGROUP_MEMORY) ∧
    (∀ env st v, (cpuLimitSet env st v).1 ≠ none →
      (cpuLimitSet env st v).2 = st ∨
      (cpuLimitSet env st v).2 = wcUpd st CGROUP_CPU) ∧
    (∀ st v, (bindDnsSet st v).1 ≠ none → (bindDnsSet st v).2 = st) ∧
    (∀ env st v, (ulimitSet env st v).1 ≠ none → (ulimitSet env st v).2 = st) ∧
    (∀ env st ix v, (ulimitSetIndexed env st ix v).1 ≠ none →
      (ulimitSetIndexed env st ix v).2 = st) ∧
    (∀ st v, (controllersSet st v).1 ≠ none → (controllersSet st v).2 = st) ∧
    (∀ st ix v, (controllersSetIndexed st ix v).1 ≠ none →
      (controllersSetIndexed st ix v).2 = st) ∧
    (∀ env st l, (commitLimit env st l).1 ≠ none →
      (commitLimit env st l).2 = st) ∧
    (∀ env st a, (commitAmbient env st a).1 ≠ none →
      (commitAmbient env st a).2 = st) ∧
    (∀ env cs i v, committed cs → (memoryGuaranteeSet env cs i v).1 ≠ none →
      (memoryGuaranteeSet env cs i v).2 = cs ∨
      ∃ st, cs[i]? = some st ∧
        (memoryGuaranteeSet env cs i v).2 = cs.set i (wcUpd st CGROUP_MEMORY)) := by
  refine ⟨?_, ?_, ?_, ?_, ?_, ?_, ?_, ?_, ?_, ?_⟩
  · -- memory_limit
    intro env st v h
    rcases hg : isAlive st with _ | e
    · rcases wantControllers_cases st CGROUP_MEMORY with hw | hw | hw
      · rcases hp : StringToSize v with e | n
        · right; simp [memoryLimitSet, hg, hw, hp]
        · by_cases hc : n ≠ 0 ∧ n < env.minMemoryLimit
          · right; simp [memoryLimitSet, hg, hw, hp, hc]
          · by_cases hm : (wcUpd st CGROUP_MEMORY).memLimit ≠ n <;>
              simp [memoryLimitSet, hg, hw, hp, hc, hm] at h
      · left; simp [memoryLimitSet, hg, hw]
      · rcases hp : StringToSize v with e | n
        · left; simp [memoryLimitSet, hg, hw, hp]
        · by_cases hc : n ≠ 0 ∧ n < env.minMemoryLimit
          · left; simp [memoryLimitSet, hg, hw, hp, hc]
          · by_cases hm : st.memLimit ≠ n <;>
              simp [memoryLimitSet, hg, hw, hp, hc, hm] at h
    · left; simp [memoryLimitSet, hg]
  · -- cpu_limit
    intro env st v h
    rcases hg : isAlive st with _ | e
    · rcases wantControllers_cases st CGROUP_CPU with hw | hw | hw
      · rcases hp : StringToCpuValue env.numCores v with e | q
        · right; simp [cpuLimitSet, hg, hw, hp]
        · by_cases hc : q.gtB (wcUpd st CGROUP_CPU).parentCpuLimit = true ∧
              env.isSuperUser = false
          · right; simp [cpuLimitSet, hg, hw, hp, hc]
          · by_cases hm : (wcUpd st CGROUP_CPU).cpuLimit.eqvB q = false <;>
              simp [cpuLimitSet, hg, hw, hp, hc, hm] at h
      · left; simp [cpuLimitSet, hg, hw]
      · rcases hp : StringToCpuValue env.numCores v with e | q
        · left; simp [cpuLimitSet, hg, hw, hp]
        · by_cases hc : q.gtB st.parentCpuLimit = true ∧ env.isSuperUser = false
          · left; simp [cpuLimitSet, hg, hw, hp, hc]
          · by_cases hm : st.cpuLimit.eqvB q = false <;>
              simp [cpuLimitSet, hg, hw, hp, hc, hm] at h
    · left; simp [cpuLimitSet, hg]
  · -- bind_dns
    intro st v h
    rcases hg : isAliveAndStopped st with _ | e
    · rcases hp : StringToBool v with e | b
      · simp [bindDnsSet, hg, hp]
      · simp [bindDnsSet, hg, hp] at h
    · simp [bindDnsSet, hg]
  · -- ulimit (whole map)
    intro env st v h
    rcases hg : isAlive st with _ | e
    · rcases hp : StringToStringMap v with e | m
      · simp [ulimitSet, hg, hp]
      · rcases hc : ulimitCheck env m with _ | e2
        · simp [ulimitSet, hg, hp, hc] at h
        · simp [ulimitSet, hg, hp, hc]
    · simp [ulimitSet, hg]
  · -- ulimit (indexed)
    intro env st ix v h
    by_cases hv : v = ""
    · simp [ulimitSetIndexed, hv] at h
    · rcases hp : env.parseUlimit ix v with _ | e
      · simp [ulimitSetIndexed, hv, hp] at h
      · simp [ulimitSetIndexed, hv, hp]
  · -- controllers (whole mask)
    intro st v h
    rcases hg : isAliveAndStopped st with _ | e
    · rcases hp : StringParseFlags v ControllersName ';' with e | m
      · simp [controllersSet, hg, hp]
      · by_cases hc : m &&& st.requiredControllers ≠ st.requiredControllers
        · simp [controllersSet, hg, hp, hc]
        · simp [controllersSet, hg, hp, hc] at h
    · simp [controllersSet, hg]
  · -- controllers (indexed)
    intro st ix v h
    rcases hp : StringParseFlags ix ControllersName ';' with e | m
    · simp [controllersSetIndexed, hp]
    · rcases hb : StringToBool v with e | b
      · simp [controllersSetIndexed, hp, hb]
      · by_cases hc : (if b then st.controllers ||| m
            else st.controllers &&& not64 m) &&& st.requiredControllers ≠
            st.requiredControllers
        · simp [controllersSetIndexed, hp, hb, hc]
        · simp [controllersSetIndexed, hp, hb, hc] at h
  · -- capabilities (CommitLimit)
    intro env st l h
    exact commitLimit_err env st l h
  · -- capabilities_ambient (CommitAmbient)
    intro env st a h
    rcases hg : isAliveAndStopped st with _ | e
    · by_cases h1 : a &&& not64 env.allCapabilities ≠ 0
      · simp only [commitAmbient, hg]; rw [if_pos h1]
      · by_cases h2 : a &&& not64 st.capAllowed ≠ 0 ∧ ¬env.isSuperUser
        · simp only [commitAmbient, hg]; rw [if_neg h1, if_pos h2]
        · by_cases h3 : a &&& not64 st.capLimit ≠ 0
          · rcases hcl : commitLimit env st (st.capLimit ||| a) with ⟨e1, st1⟩
            cases e1 with
            | some e =>
              simp only [commitAmbient, hg]
              rw [if_neg h1, if_neg h2, if_pos h3, hcl]
            | none =>
              simp only [commitAmbient, hg] at h
              rw [if_neg h1, if_neg h2, if_pos h3, hcl] at h
              simp at h
          · simp only [commitAmbient, hg] at h
            rw [if_neg h1, if_neg h2, if_neg h3] at h
            simp at h
    · simp [commitAmbient, hg]
  · -- memory_guarantee (tree-wide)
    intro env cs i v hcom h
    rcases hi : cs[i]? with _ | st
    · left; simp [memoryGuaranteeSet, hi]
    · have hpt : st.newMemGuarantee = st.memGuarantee := by
        have h1 := congrArg (fun l => l[i]?) hcom
        simp only [List.getElem?_map, hi, Option.map_some] at h1
        exact (Option.some.inj h1).symm
      rcases hg : isAlive st with _ | e
      · rcases wantControllers_cases st CGROUP_MEMORY with hw | hw | hw
        · rcases hp : StringToSize v with e | n
          · right
            exact ⟨st, rfl, by simp [memoryGuaranteeSet, hi, hg, hw, hp]⟩
          · by_cases hchk : GetTotalMemGuarantee
                (cs.set i { wcUpd st CGROUP_MEMORY with newMemGuarantee := n }) +
                env.memGuaranteeReserve > env.totalMemory
            · right
              refine ⟨st, rfl, ?_⟩
              have hx : ({ wcUpd st CGROUP_MEMORY with
                  newMemGuarantee := (wcUpd st CGROUP_MEMORY).memGuarantee } : CState) =
                  wcUpd st CGROUP_MEMORY :=
                cstate_new_eq (wcUpd st CGROUP_MEMORY) hpt
              simp [memoryGuaranteeSet, hi, hg, hw, hp, hchk, hx]
            · by_cases hm : ({ wcUpd st CGROUP_MEMORY with
                  newMemGuarantee := n } : CState).memGuarantee ≠ n <;>
                simp [memoryGuaranteeSet, hi, hg, hw, hp, hchk, hm] at h
        · left
          have hself : cs.set i st = cs := list_set_self cs i st hi
          simp [memoryGuaranteeSet, hi, hg, hw, hself]
        · rcases hp : StringToSize v with e | n
          · left
            have hself : cs.set i st = cs := list_set_self cs i st hi
            simp [memoryGuaranteeSet, hi, hg, hw, hp, hself]
          · by_cases hchk : GetTotalMemGuarantee
                (cs.set i { st with newMemGuarantee := n }) +
                env.memGuaranteeReserve > env.totalMemory
            · left
              have hx : ({ st with
                  newMemGuarantee := st.memGuarantee } : CState) = st :=
                cstate_new_eq st hpt
              have hself : cs.set i st = cs := list_set_self cs i st hi
              simp [memoryGuaranteeSet, hi, hg, hw, hp, hchk, hx, hself]
            · by_cases hm : ({ st with
                  newMemGuarantee := n } : CState).memGuarantee ≠ n <;>
                simp [memoryGuaranteeSet, hi, hg, hw, hp, hchk, hm] at h
      · left; simp [memoryGuaranteeSet, hi, hg]

/-- Witness for `c1_failed_set_preserves_record`: the failed "10x" memory
limit set on the stopped test container leaves the record equal to the
controller-enlarged one, and a failed cpu limit set on a dead container
leaves the record untouched. -/
theorem c1_failed_set_preserves_record_witness :
    ((memoryLimitSet testEnv testCt "10x").2 = testCt ∨
      (memoryLimitSet testEnv testCt "10x").2 = wcUpd testCt CGROUP_MEMORY) ∧
    ((memoryGuaranteeSet testEnv [testCt] 0 "10x").2 = [testCt] ∨
      ∃ st, ([testCt] : List CState)[0]? = some st ∧
        (memoryGuaranteeSet testEnv [testCt] 0 "10x").2 =
          ([testCt] : List CState).set 0 (wcUpd st CGROUP_MEMORY)) :=
  ⟨c1_failed_set_preserves_record.1 testEnv testCt "10x" (by decide),
   (c1_failed_set_preserves_record.2.2.2.2.2.2.2.2.2) testEnv [testCt] 0 "10x"
     (by rfl) (by decide)⟩

/-- Calling `WantControllers` in the stopped state preserves the superset
invariant. -/
theorem ctlInv_wcUpd {st : CState} (m : Nat) (h : ctlInv st) :
    ctlInv (wcUpd st m) := by
  unfold ctlInv wcUpd at *
  exact lor_land_lor h

/-- C3: `Controllers ⊇ RequiredControllers` is preserved by every embedded
operation (the controller masks are only mutated by `WantControllers`, which
widens both, and by the controllers property whose setters check the mask);
and an explicit or indexed set of `controllers` whose resulting mask would
drop a bit of `RequiredControllers` fails with `InvalidValue` without
changing anything. -/
theorem c3_controllers_superset :
    (∀ st m, ctlInv st → ctlInv (wantControllers st m).2) ∧
    (∀ env st v, ctlInv st → ctlInv (memoryLimitSet env st v).2) ∧
    (∀ env st v, ctlInv st → ctlInv (cpuLimitSet env st v).2) ∧
    (∀ st v, ctlInv st → ctlInv (bindDnsSet st v).2) ∧
    (∀ env st v, ctlInv st → ctlInv (ulimitSet env st v).2) ∧
    (∀ env st ix v, ctlInv st → ctlInv (ulimitSetIndexed env st ix v).2) ∧
    (∀ env st l, ctlInv st → ctlInv (commitLimit env st l).2) ∧
    (∀ env st a, ctlInv st → ctlInv (commitAmbient env st a).2) ∧
    (∀ st v, ctlInv st → ctlInv (controllersSet st v).2) ∧
    (∀ st ix v, ctlInv st → ctlInv (controllersSetIndexed st ix v).2) ∧
    (∀ env cs i v, (∀ c ∈ cs, ctlInv c) →
      ∀ c ∈ (memoryGuaranteeSet env cs i v).2, ctlInv c) ∧
    (∀ st v m, st.state = .Stopped →
      StringParseFlags v ControllersName ';' = .ok m →
      m &&& st.requiredControllers ≠ st.requiredControllers →
      controllersSet st v = (some .InvalidValue, st)) ∧
    (∀ st ix v m b, StringParseFlags ix ControllersName ';' = .ok m →
      StringToBool v = .ok b →
      (if b then st.controllers ||| m else st.controllers &&& not64 m) &&&
          st.requiredControllers ≠ st.requiredControllers →
      controllersSetIndexed st ix v = (some .InvalidValue, st)) := by
  refine ⟨?_, ?_, ?_, ?_, ?_, ?_, ?_, ?_, ?_, ?_, ?_, ?_, ?_⟩
  · -- WantControllers
    intro st m h
    rcases wantControllers_cases st m with hw | hw | hw <;> simp only [hw]
    · exact ctlInv_wcUpd m h
    · exact h
    · exact h
  · -- memory_limit
    intro env st v h
    rcases hg : isAlive st with _ | e
    · rcases wantControllers_cases st CGROUP_MEMORY with hw | hw | hw
      · rcases hp : StringToSize v with e | n
        · simp only [memoryLimitSet, hg, hw, hp]
          exact ctlInv_wcUpd _ h
        · by_cases hc : n ≠ 0 ∧ n < env.minMemoryLimit
          · simp [memoryLimitSet, hg, hw, hp, hc]
            exact ctlInv_wcUpd _ h
          · by_cases hm : (wcUpd st CGROUP_MEMORY).memLimit ≠ n <;>
              simp [memoryLimitSet, hg, hw, hp, hc, hm] <;>
              exact ctlInv_wcUpd _ h
      · simp only [memoryLimitSet, hg, hw]; exact h
      · rcases hp : StringToSize v with e | n
        · simp only [memoryLimitSet, hg, hw, hp]; exact h
        · by_cases hc : n ≠ 0 ∧ n < env.minMemoryLimit
          · simp [memoryLimitSet, hg, hw, hp, hc]; exact h
          · by_cases hm : st.memLimit ≠ n <;>
              simp [memoryLimitSet, hg, hw, hp, hc, hm] <;> exact h
    · simp only [memoryLimitSet, hg]; exact h
  · -- cpu_limit
    intro env st v h
    rcases hg : isAlive st with _ | e
    · rcases wantControllers_cases st CGROUP_CPU with hw | hw | hw
      · rcases hp : StringToCpuValue env.numCores v with e | q
        · simp only [cpuLimitSet, hg, hw, hp]
          exact ctlInv_wcUpd _ h
        · by_cases hc : q.gtB (wcUpd st CGROUP_CPU).parentCpuLimit = true ∧
              env.isSuperUser = false
          · simp [cpuLimitSet, hg, hw, hp, hc]
            exact ctlInv_wcUpd _ h
          · by_cases hm : (wcUpd st CGROUP_CPU).cpuLimit.eqvB q = false <;>
              simp [cpuLimitSet, hg, hw, hp, hc, hm] <;>
              exact ctlInv_wcUpd _ h
      · simp only [cpuLimitSet, hg, hw]; exact h
      · rcases hp : StringToCpuValue env.numCores v with e | q
        · simp only [cpuLimitSet, hg, hw, hp]; exact h
        · by_cases hc : q.gtB st.parentCpuLimit = true ∧ env.isSuperUser = false
          · simp [cpuLimitSet, hg, hw, hp, hc]; exact h
          · by_cases hm : st.cpuLimit.eqvB q = false <;>
              simp [cpuLimitSet, hg, hw, hp, hc, hm] <;> exact h
    · simp only [cpuLimitSet, hg]; exact h
  · -- bind_dns
    intro st v h
    rcases hg : isAliveAndStopped st with _ | e
    · rcases hp : StringToBool v with e | b <;>
        simp only [bindDnsSet, hg, hp] <;> exact h
    · simp only [bindDnsSet, hg]; exact h
  · -- ulimit
    intro env st v h
    rcases hg : isAlive st with _ | e
    · rcases hp : StringToStringMap v with e | m
      · simp only [ulimitSet, hg, hp]; exact h
      · rcases hc : ulimitCheck env m with _ | e2 <;>
          simp only [ulimitSet, hg, hp, hc] <;> exact h
    · simp only [ulimitSet, hg]; exact h
  · -- ulimit indexed
    intro env st ix v h
    by_cases hv : v = ""
    · simp only [ulimitSetIndexed, hv, if_pos]; exact h
    · rcases hp : env.parseUlimit ix v with _ | e <;>
        simp only [ulimitSetIndexed, hv, hp, if_neg] <;> exact h
  · -- CommitLimit
    intro env st l h
    rcases hg : isAliveAndStopped st with _ | e
    · by_cases h1 : l &&& not64 env.allCapabilities ≠ 0
      · simp only [commitLimit, hg]; rw [if_pos h1]; exact h
      · by_cases h2 : l &&& not64 (capBound env st) ≠ 0
        · simp only [commitLimit, hg]; rw [if_neg h1, if_pos h2]; exact h
        · simp only [commitLimit, hg]; rw [if_neg h1, if_neg h2]; exact h
    · simp only [commitLimit, hg]; exact h
  · -- CommitAmbient
    intro env st a h
    rcases hg : isAliveAndStopped st with _ | e
    · by_cases h1 : a &&& not64 env.allCapabilities ≠ 0
      · simp only [commitAmbient, hg]; rw [if_pos h1]; exact h
      · by_cases h2 : a &&& not64 st.capAllowed ≠ 0 ∧ ¬env.isSuperUser
        · simp only [commitAmbient, hg]; rw [if_neg h1, if_pos h2]; exact h
        · by_cases h3 : a &&& not64 st.capLimit ≠ 0
          · rcases hcl : commitLimit env st (st.capLimit ||| a) with ⟨e1, st1⟩
            cases e1 with
            | some e =>
              simp only [commitAmbient, hg]
              rw [if_neg h1, if_neg h2, if_pos h3, hcl]
              exact h
            | none =>
              have hok2 : st1 = sanitizeCapabilities env
                  { st with capLimit := st.capLimit ||| a,
                            props := setProp st.props .CAPABILITIES } := by
                have hok := commitLimit_ok env st (st.capLimit ||| a)
                  (by rw [hcl])
                rw [hcl] at hok
                exact hok
              simp only [commitAmbient, hg]
              rw [if_neg h1, if_neg h2, if_pos h3, hcl]
              show ctlInv (sanitizeCapabilities env _)
              rw [hok2]
              exact h
          · simp only [commitAmbient, hg]
            rw [if_neg h1, if_neg h2, if_neg h3]
            exact h
    · simp only [commitAmbient, hg]; exact h
  · -- controllers set
    intro st v h
    rcases hg : isAliveAndStopped st with _ | e
    · rcases hp : StringParseFlags v ControllersName ';' with e | m
      · simp only [controllersSet, hg, hp]; exact h
      · by_cases hc : m &&& st.requiredControllers ≠ st.requiredControllers
        · simp [controllersSet, hg, hp, hc]; exact h
        · simp [controllersSet, hg, hp, hc]
          show ctlInv _
          unfold ctlInv
          exact not_not.mp hc
    · simp only [controllersSet, hg]; exact h
  · -- controllers set indexed
    intro st ix v h
    rcases hp : StringParseFlags ix ControllersName ';' with e | m
    · simp only [controllersSetIndexed, hp]; exact h
    · rcases hb : StringToBool v with e | b
      · simp only [controllersSetIndexed, hp, hb]; exact h
      · by_cases hc : (if b then st.controllers ||| m
            else st.controllers &&& not64 m) &&& st.requiredControllers ≠
            st.requiredControllers
        · simp [controllersSetIndexed, hp, hb, hc]; exact h
        · simp [controllersSetIndexed, hp, hb, hc]
          show ctlInv _
          unfold ctlInv
          exact not_not.mp hc
  · -- memory_guarantee (tree-wide)
    intro env cs i v hall c hcm
    rcases hi : cs[i]? with _ | st
    · simp only [memoryGuaranteeSet, hi] at hcm
      exact hall c hcm
    · have hst : ctlInv st := hall st (List.getElem?_mem hi)
      have hmem : ∀ (x : CState), ctlInv x → c ∈ cs.set i x → ctlInv c := by
        intro x hx hcx
        rcases List.mem_or_eq_of_mem_set hcx with h1 | h1
        · exact hall c h1
        · rw [h1]; exact hx
      rcases hg : isAlive st with _ | e
      · rcases wantControllers_cases st CGROUP_MEMORY with hw | hw | hw
        · rcases hp : StringToSize v with e | n
          · simp only [memoryGuaranteeSet, hi, hg, hw, hp] at hcm
            refine hmem _ ?_ hcm
            exact ctlInv_wcUpd _ hst
          · simp only [memoryGuaranteeSet, hi, hg, hw, hp] at hcm
            split at hcm
            · refine hmem _ ?_ hcm
              exact ctlInv_wcUpd _ hst
            · split at hcm <;>
                (refine hmem _ ?_ hcm; exact ctlInv_wcUpd _ hst)
        · simp only [memoryGuaranteeSet, hi, hg, hw] at hcm
          refine hmem _ ?_ hcm
          exact hst
        · rcases hp : StringToSize v with e | n
          · simp only [memoryGuaranteeSet, hi, hg, hw, hp] at hcm
            refine hmem _ ?_ hcm
            exact hst
          · simp only [memoryGuaranteeSet, hi, hg, hw, hp] at hcm
            split at hcm
            · refine hmem _ ?_ hcm
              exact hst
            · split at hcm <;> (refine hmem _ ?_ hcm; exact hst)
      · simp only [memoryGuaranteeSet, hi, hg] at hcm
        exact hall c hcm
  · -- explicit controllers set dropping a required bit
    intro st v m hS hp hd
    have hg : isAliveAndStopped st = none := by
      simp [isAliveAndStopped, hS]
    simp [controllersSet, hg, hp, hd]
  · -- indexed controllers set dropping a required bit
    intro st ix v m b hp hb hd
    simp [controllersSetIndexed, hp, hb, hd]

/-- Witness for `c3_controllers_superset`: the invariant transported through
a concrete `WantControllers` call, and the rejected explicit set that would
drop the required `pids` bit. -/
theorem c3_controllers_superset_witness :
    ctlInv (wantControllers testCt CGROUP_MEMORY).2 ∧
    controllersSet
        { testCt with controllers := CGROUP_PIDS,
                      requiredControllers := CGROUP_PIDS } "memory" =
      (some .InvalidValue,
       { testCt with controllers := CGROUP_PIDS,
                     requiredControllers := CGROUP_PIDS }) :=
  ⟨c3_controllers_superset.1 testCt CGROUP_MEMORY (by rfl),
   c3_controllers_superset.2.2.2.2.2.2.2.2.2.2.2.1
     { testCt with controllers := CGROUP_PIDS,
                   requiredControllers := CGROUP_PIDS } "memory" CGROUP_MEMORY
     (by decide) (by decide) (by decide)⟩

/-- A tree update that keeps the updated container's committed guarantee (and
a clean staging slot) preserves the at-rest property and the tree bound. -/
theorem memset_preserve {R T : Nat} (cs : List CState) (i : Nat)
    (st X : CState) (hi : cs[i]? = some st) (hcom : committed cs)
    (hsum : treeMemGuarantee cs + R ≤ T)
    (hm : X.memGuarantee = st.memGuarantee)
    (hn : X.newMemGuarantee = X.memGuarantee) :
    committed (cs.set i X) ∧ treeMemGuarantee (cs.set i X) + R ≤ T := by
  have hmapm : (cs.map (fun c => c.memGuarantee))[i]? =
      some st.memGuarantee := by
    rw [List.getElem?_map, hi]; rfl
  constructor
  · unfold committed
    rw [List.map_set, List.map_set, hn, hm]
    rw [show cs.map (fun c => c.memGuarantee) =
        cs.map (fun c => c.newMemGuarantee) from hcom]
  · unfold treeMemGuarantee
    rw [List.map_set, hm, list_set_self _ _ _ hmapm]
    exact hsum

/-- Committing a new guarantee `n` whose staged tree sum satisfies the bound
preserves the at-rest property and the tree bound. -/
theorem memset_commit {R T n : Nat} (cs : List CState) (i : Nat) (X : CState)
    (hcom : committed cs)
    (hm : X.memGuarantee = n) (hn : X.newMemGuarantee = n)
    (hb : ((cs.map (fun c => c.newMemGuarantee)).set i n).sum + R ≤ T) :
    committed (cs.set i X) ∧ treeMemGuarantee (cs.set i X) + R ≤ T := by
  constructor
  · unfold committed
    rw [List.map_set, List.map_set, hn, hm]
    rw [show cs.map (fun c => c.memGuarantee) =
        cs.map (fun c => c.newMemGuarantee) from hcom]
  · unfold treeMemGuarantee
    rw [List.map_set, hm]
    rw [show cs.map (fun c => c.memGuarantee) =
        cs.map (fun c => c.newMemGuarantee) from hcom]
    exact hb

/-- C4: the concrete tree-sum scenario — total 100 bytes, reserve 10, root
with two children: setting child A's `memory_guarantee` to 60 succeeds, a
subsequent set of child B's to 40 fails with `ResourceNotAvailable` and
leaves B at its prior value — and in general every `memory_guarantee` set on
a tree at rest keeps the tree at rest and keeps the sum of committed
guarantees plus the configured reserve within total host memory. -/
theorem c4_mem_guarantee_tree_sum :
    ((memoryGuaranteeSet testEnv [testCt, testCt, testCt] 1 "60").1 = none ∧
      (memoryGuaranteeSet testEnv
          (memoryGuaranteeSet testEnv [testCt, testCt, testCt] 1 "60").2
          2 "40").1 = some .ResourceNotAvailable ∧
      ((memoryGuaranteeSet testEnv
          (memoryGuaranteeSet testEnv [testCt, testCt, testCt] 1 "60").2
          2 "40").2.map (fun c => c.memGuarantee)) = [0, 60, 0]) ∧
    (∀ env cs i v, committed cs →
      treeMemGuarantee cs + env.memGuaranteeReserve ≤ env.totalMemory →
      committed (memoryGuaranteeSet env cs i v).2 ∧
      treeMemGuarantee (memoryGuaranteeSet env cs i v).2 +
          env.memGuaranteeReserve ≤ env.totalMemory) := by
  constructor
  · exact ⟨by decide, by decide, by decide⟩
  · intro env cs i v hcom hsum
    rcases hi : cs[i]? with _ | st
    · simp only [memoryGuaranteeSet, hi]
      exact ⟨hcom, hsum⟩
    · have hptw : st.memGuarantee = st.newMemGuarantee := by
        have h1 := congrArg (fun l => l[i]?) hcom
        simp only [List.getElem?_map, hi, Option.map_some] at h1
        exact Option.some.inj h1
      rcases hg : isAlive st with _ | e
      · rcases wantControllers_cases st CGROUP_MEMORY with hw | hw | hw
        · rcases hp : StringToSize v with e | n
          · simp only [memoryGuaranteeSet, hi, hg, hw, hp]
            exact memset_preserve cs i st _ hi hcom hsum rfl hptw.symm
          · simp only [memoryGuaranteeSet, hi, hg, hw, hp]
            split
            · exact memset_preserve cs i st _ hi hcom hsum rfl rfl
            · rename_i hcond
              split
              · refine memset_commit cs i _ hcom rfl rfl ?_
                refine Nat.le_of_not_lt ?_
                simpa only [GetTotalMemGuarantee, List.map_set] using hcond
              · rename_i hne
                refine memset_commit cs i _ hcom (not_not.mp hne) rfl ?_
                refine Nat.le_of_not_lt ?_
                simpa only [GetTotalMemGuarantee, List.map_set] using hcond
        · simp only [memoryGuaranteeSet, hi, hg, hw]
          rw [list_set_self cs i st hi]
          exact ⟨hcom, hsum⟩
        · rcases hp : StringToSize v with e | n
          · simp only [memoryGuaranteeSet, hi, hg, hw, hp]
            exact memset_preserve cs i st _ hi hcom hsum rfl hptw.symm
          · simp only [memoryGuaranteeSet, hi, hg, hw, hp]
            split
            · exact memset_preserve cs i st _ hi hcom hsum rfl rfl
            · rename_i hcond
              split
              · refine memset_commit cs i _ hcom rfl rfl ?_
                refine Nat.le_of_not_lt ?_
                simpa only [GetTotalMemGuarantee, List.map_set] using hcond
              · rename_i hne
                refine memset_commit cs i _ hcom (not_not.mp hne) rfl ?_
                refine Nat.le_of_not_lt ?_
                simpa only [GetTotalMemGuarantee, List.map_set] using hcond
      · simp only [memoryGuaranteeSet, hi, hg]
        exact ⟨hcom, hsum⟩

/-- Witness for `c4_mem_guarantee_tree_sum`, applying the invariant part to a
committed single-container tree within the bound. -/
theorem c4_mem_guarantee_tree_sum_witness :
    committed (memoryGuaranteeSet testEnv [testCt] 0 "60").2 ∧
    treeMemGuarantee (memoryGuaranteeSet testEnv [testCt] 0 "60").2 +
        testEnv.memGuaranteeReserve ≤ testEnv.totalMemory :=
  c4_mem_guarantee_tree_sum.2 testEnv [testCt] 0 "60" (by rfl) (by decide)

/-! ## The split/merge round trip (C8) -/

theorem replaceAllC_append (p : Char) (r a b : List Char) :
    replaceAllC p r (a ++ b) = replaceAllC p r a ++ replaceAllC p r b := by
  induction a with
  | nil => simp [replaceAllC]
  | cons x a ih => simp [replaceAllC, ih]

theorem escTok_cons (c : Char) (t : List Char) :
    escTokC ' ' ';' (c :: t) = escC c ++ escTokC ' ' ';' t := by
  by_cases h1 : c = '\\'
  · subst h1
    simp [escTokC, escC, replaceAllC, replaceAllC_append, nulChar]
  · by_cases h2 : c = ' '
    · subst h2
      simp [escTokC, escC, replaceAllC, replaceAllC_append, nulChar]
    · by_cases h3 : c = ';'
      · subst h3
        simp [escTokC, escC, replaceAllC, replaceAllC_append, nulChar]
      · simp [escTokC, escC, replaceAllC, replaceAllC_append, nulChar,
          h1, h2, h3]

theorem escTok_eq_escAll (t : List Char) : escTokC ' ' ';' t = escAll t := by
  induction t with
  | nil => rfl
  | cons c t ih => rw [escTok_cons, ih]; rfl

/-- Unfolding `splitLoopC` at a separator character. -/
theorem splitLoopC_sep (sepI sepO c : Char) (rest ss : List Char)
    (cur : List (List Char)) (done : List (List (List Char)))
    (h : c = sepI ∨ (sepO ≠ nulChar ∧ c = sepO)) :
    splitLoopC sepI sepO (c :: rest) ss cur done =
      if (sepO ≠ nulChar ∧ c = sepO) ∧ flushTok ss cur ≠ [] then
        splitLoopC sepI sepO rest [] [] (done ++ [flushTok ss cur])
      else splitLoopC sepI sepO rest [] (flushTok ss cur) done := by
  cases rest with
  | nil => simp only [splitLoopC]; rw [if_pos h]
  | cons d rest2 => simp only [splitLoopC]; rw [if_pos h]

/-- Unfolding `splitLoopC` at a plain character. -/
theorem splitLoopC_plain (sepI sepO c : Char) (rest ss : List Char)
    (cur : List (List Char)) (done : List (List (List Char)))
    (h1 : ¬(c = sepI ∨ (sepO ≠ nulChar ∧ c = sepO))) (h2 : c ≠ '\\') :
    splitLoopC sepI sepO (c :: rest) ss cur done =
      splitLoopC sepI sepO rest (ss ++ [c]) cur done := by
  cases rest with
  | nil => simp only [splitLoopC]; rw [if_neg h1, if_neg h2]
  | cons d rest2 => simp only [splitLoopC]; rw [if_neg h1, if_neg h2]

/-- Unfolding `splitLoopC` at an escaping backslash. -/
theorem splitLoopC_esc (sepI sepO d : Char) (rest2 ss : List Char)
    (cur : List (List Char)) (done : List (List (List Char)))
    (hc : ¬(('\\' : Char) = sepI ∨ (sepO ≠ nulChar ∧ ('\\' : Char) = sepO)))
    (hd : d = '\\' ∨ d = sepI ∨ (sepO ≠ nulChar ∧ d = sepO)) :
    splitLoopC sepI sepO ('\\' :: d :: rest2) ss cur done =
      splitLoopC sepI sepO rest2 (ss ++ [d]) cur done := by
  simp only [splitLoopC]
  rw [if_neg hc]
  simp only [if_true]
  rw [if_pos hd]

/-- Scanning the escaped image of a token accumulates exactly the token. -/
theorem splitLoop_scan_tok (t : List Char) :
    ∀ (rest ss : List Char) (cur : List (List Char))
      (done : List (List (List Char))),
    splitLoopC ' ' ';' (escAll t ++ rest) ss cur done =
      splitLoopC ' ' ';' rest (ss ++ t) cur done := by
  induction t with
  | nil => intro rest ss cur done; simp [escAll]
  | cons c t ih =>
    intro rest ss cur done
    have hsemi : (';' : Char) ≠ nulChar := by decide
    by_cases hs : c = '\\' ∨ c = ' ' ∨ c = ';'
    · have he : escC c = ['\\', c] := by simp [escC, hs]
      have hstream : escAll (c :: t) ++ rest =
          '\\' :: c :: (escAll t ++ rest) := by
        show (escC c ++ escAll t) ++ rest = _
        rw [he]
        simp
      have hguard : ¬(('\\' : Char) = ' ' ∨
          ((';' : Char) ≠ nulChar ∧ ('\\' : Char) = ';')) := by decide
      have hesc : c = '\\' ∨ c = ' ' ∨ ((';' : Char) ≠ nulChar ∧ c = ';') := by
        rcases hs with h | h | h
        · exact Or.inl h
        · exact Or.inr (Or.inl h)
        · exact Or.inr (Or.inr ⟨hsemi, h⟩)
      rw [hstream,
        splitLoopC_esc ' ' ';' c (escAll t ++ rest) ss cur done hguard hesc,
        ih]
      rw [show (ss ++ [c]) ++ t = ss ++ (c :: t) by simp]
    · push_neg at hs
      obtain ⟨hc1, hc2, hc3⟩ := hs
      have he : escC c = [c] := by simp [escC, hc1, hc2, hc3]
      have hstream : escAll (c :: t) ++ rest = c :: (escAll t ++ rest) := by
        show (escC c ++ escAll t) ++ rest = _
        rw [he]
        simp
      have hguard : ¬(c = ' ' ∨ ((';' : Char) ≠ nulChar ∧ c = ';')) := by
        rintro (h | ⟨-, h⟩)
        · exact hc2 h
        · exact hc3 h
      rw [hstream,
        splitLoopC_plain ' ' ';' c (escAll t ++ rest) ss cur done hguard hc1,
        ih]
      rw [show (ss ++ [c]) ++ t = ss ++ (c :: t) by simp]

/-- Flushing a non-empty trimmed token appends it to the current tuple. -/
theorem flushTok_wf (t : List Char) (cur : List (List Char))
    (h1 : t ≠ []) (h2 : trimC t = t) :
    flushTok t cur = cur ++ [t] := by
  simp only [flushTok, h2]
  rw [if_neg h1]

/-- Scanning one whole escaped tuple up to the end of the input. -/
theorem splitLoop_tuple_end : ∀ (T : List (List Char)),
    (∀ t ∈ T, t ≠ [] ∧ trimC t = t) → T ≠ [] →
    ∀ (cur : List (List Char)) (done : List (List (List Char))),
    splitLoopC ' ' ';' (intercalateC [' '] (T.map escAll)) [] cur done =
      done ++ [cur ++ T] := by
  intro T
  induction T with
  | nil => intro _ hne; exact absurd rfl hne
  | cons t T ih =>
    intro hwf _ cur done
    obtain ⟨ht1, ht2⟩ := hwf t (List.mem_cons_self t T)
    cases T with
    | nil =>
      simp only [List.map, intercalateC]
      rw [show escAll t = escAll t ++ ([] : List Char) by simp,
        splitLoop_scan_tok t [] [] cur done]
      simp only [List.nil_append, splitLoopC, splitEnd]
      rw [flushTok_wf t cur ht1 ht2]
      rw [if_neg (by simp : ¬(cur ++ [t] = []))]
    | cons u T2 =>
      have hbody : intercalateC [' '] ((t :: u :: T2).map escAll) =
          escAll t ++ (' ' :: intercalateC [' '] ((u :: T2).map escAll)) := by
        simp only [List.map, intercalateC]
        simp
      rw [hbody, splitLoop_scan_tok t _ [] cur done]
      simp only [List.nil_append]
      rw [splitLoopC_sep ' ' ';' ' ' _ t cur done (Or.inl rfl)]
      rw [flushTok_wf t cur ht1 ht2]
      rw [if_neg (by rintro ⟨⟨-, h⟩, -⟩; exact absurd h (by decide))]
      rw [ih (fun x hx => hwf x (List.mem_cons_of_mem t hx))
        (List.cons_ne_nil u T2) (cur ++ [t]) done]
      simp

/-- Scanning one whole escaped tuple up to an outer separator. -/
theorem splitLoop_tuple_mid : ∀ (T : List (List Char)),
    (∀ t ∈ T, t ≠ [] ∧ trimC t = t) → T ≠ [] →
    ∀ (rest : List Char) (cur : List (List Char))
      (done : List (List (List Char))),
    splitLoopC ' ' ';'
        (intercalateC [' '] (T.map escAll) ++ (';' :: rest)) [] cur done =
      splitLoopC ' ' ';' rest [] [] (done ++ [cur ++ T]) := by
  intro T
  induction T with
  | nil => intro _ hne; exact absurd rfl hne
  | cons t T ih =>
    intro hwf _ rest cur done
    obtain ⟨ht1, ht2⟩ := hwf t (List.mem_cons_self t T)
    cases T with
    | nil =>
      simp only [List.map, intercalateC]
      rw [splitLoop_scan_tok t (';' :: rest) [] cur done]
      simp only [List.nil_append]
      rw [splitLoopC_sep ' ' ';' ';' rest t cur done
        (Or.inr ⟨by decide, rfl⟩)]
      rw [flushTok_wf t cur ht1 ht2]
      rw [if_pos ⟨⟨by decide, rfl⟩, by simp⟩]
    | cons u T2 =>
      have hbody : intercalateC [' '] ((t :: u :: T2).map escAll) ++
          (';' :: rest) =
          escAll t ++ (' ' ::
            (intercalateC [' '] ((u :: T2).map escAll) ++ (';' :: rest))) := by
        simp only [List.map, intercalateC]
        simp
      rw [hbody, splitLoop_scan_tok t _ [] cur done]
      simp only [List.nil_append]
      rw [splitLoopC_sep ' ' ';' ' ' _ t cur done (Or.inl rfl)]
      rw [flushTok_wf t cur ht1 ht2]
      rw [if_neg (by rintro ⟨⟨-, h⟩, -⟩; exact absurd h (by decide))]
      rw [ih (fun x hx => hwf x (List.mem_cons_of_mem t hx))
        (List.cons_ne_nil u T2) rest (cur ++ [t]) done]
      simp

/-- Scanning the merged image of a well-formed tuple list recovers it. -/
theorem splitLoop_tuples : ∀ (ts : List (List (List Char))),
    wfTuplesC ts →
    ∀ done, splitLoopC ' ' ';'
        (intercalateC [';']
          (ts.map (fun T => intercalateC [' '] (T.map escAll)))) [] [] done =
      done ++ ts := by
  intro ts
  induction ts with
  | nil =>
    intro _ done
    simp [intercalateC, splitLoopC, splitEnd, flushTok, trimC]
  | cons T ts ih =>
    intro hwf done
    obtain ⟨hT1, hT2⟩ := hwf T (List.mem_cons_self T ts)
    have hT2' : ∀ t ∈ T, t ≠ [] ∧ trimC t = t := fun t ht =>
      ⟨(hT2 t ht).1, (hT2 t ht).2⟩
    cases ts with
    | nil =>
      simp only [List.map, intercalateC]
      rw [splitLoop_tuple_end T hT2' hT1 [] done]
      simp
    | cons U ts2 =>
      have hbody : intercalateC [';']
          ((T :: U :: ts2).map (fun X => intercalateC [' '] (X.map escAll))) =
          intercalateC [' '] (T.map escAll) ++ (';' :: intercalateC [';']
            ((U :: ts2).map (fun X => intercalateC [' '] (X.map escAll)))) := by
        simp only [List.map, intercalateC]
        simp
      rw [hbody, splitLoop_tuple_mid T hT2' hT1 _ [] done]
      rw [ih (fun X hX => hwf X (List.mem_cons_of_mem T hX)) (done ++ [[] ++ T])]
      simp

/-- Splitting the merged image of a well-formed tuple list (character
level). -/
theorem split_merge_core (ts : List (List (List Char))) (hwf : wfTuplesC ts) :
    splitLoopC ' ' ';' (mergeC ' ' ';' ts) [] [] [] = ts := by
  have hfil : ts.filter (fun t => !List.isEmpty t) = ts := by
    rw [List.filter_eq_self]
    intro T hT
    have h1 := (hwf T hT).1
    simpa using h1
  have hfun : escTokC ' ' ';' = escAll := funext escTok_eq_escAll
  have hmt : mergeTupleC ' ' ';' =
      fun T => intercalateC [' '] (T.map escAll) := by
    funext T
    unfold mergeTupleC
    rw [hfun]
  unfold mergeC
  rw [if_neg (by decide : ¬((';' : Char) = nulChar))]
  rw [hfil, hmt]
  exact (splitLoop_tuples ts hwf []).trans (List.nil_append ts)

/-- C8: the concrete escaped split — `split("a\\;b;c", ' ', ';') =
[["a;b"], ["c"]]` — and the round trip on the image of merge: for every
tuple list with non-empty tuples of non-empty trimmed tokens, splitting the
merged string returns exactly that list, hence merging the result of
splitting such a string gives the string back.  (For arbitrary strings the
original `merge(split(s)) = s` fails; see the counterexample.) -/
theorem c8_split_merge_roundtrip :
    SplitEscapedString "a\\;b;c" ' ' ';' = [["a;b"], ["c"]] ∧
    ∀ ts : List (List String), wfTuplesS ts →
      SplitEscapedString (MergeEscapeStrings ts ' ' ';') ' ' ';' = ts ∧
      MergeEscapeStrings
          (SplitEscapedString (MergeEscapeStrings ts ' ' ';') ' ' ';')
          ' ' ';' =
        MergeEscapeStrings ts ' ' ';' := by
  constructor
  · decide
  · intro ts hwf
    have heta : ∀ s : String, String.mk s.data = s := fun s => rfl
    have hwfC : wfTuplesC (ts.map (fun T => T.map String.data)) := by
      intro T hT
      rcases List.mem_map.mp hT with ⟨T0, hT0, rfl⟩
      obtain ⟨h1, h2⟩ := hwf T0 hT0
      constructor
      · simpa using h1
      · intro t ht
        rcases List.mem_map.mp ht with ⟨s, hs, rfl⟩
        obtain ⟨hs1, hs2⟩ := h2 s hs
        constructor
        · intro hd
          apply hs1
          rw [← heta s, hd]
        · simpa [StringTrim] using congrArg String.data hs2
    have hcore := split_merge_core (ts.map (fun T => T.map String.data)) hwfC
    have hsplit :
        SplitEscapedString (MergeEscapeStrings ts ' ' ';') ' ' ';' = ts := by
      show (splitLoopC ' ' ';'
          (mergeC ' ' ';' (ts.map (fun T => T.map String.data))) [] [] []).map
            (fun T => T.map String.mk) = ts
      rw [hcore]
      have hcomp : (String.mk ∘ String.data) = id := funext heta
      simp [List.map_map, hcomp, List.map_id]
    exact ⟨hsplit, by rw [hsplit]⟩

/-- Witness for `c8_split_merge_roundtrip` at the concrete tuple list
`[["a;b"], ["c"]]`. -/
theorem c8_split_merge_roundtrip_witness :
    SplitEscapedString
        (MergeEscapeStrings [["a;b"], ["c"]] ' ' ';') ' ' ';' =
      [["a;b"], ["c"]] :=
  (c8_split_merge_roundtrip.2 [["a;b"], ["c"]]
    (by unfold wfTuplesS; decide)).1

/-- C8 counterexample: the string ";" has no backslashes at all, yet
`merge(split(";"))` is `""`, not `";"` — split drops empty tokens and
tuples. -/
theorem c8_counterexample :
    MergeEscapeStrings (SplitEscapedString ";" ' ' ';') ' ' ';' = "" ∧
    (";" : String) ≠ "" := by
  decide

end Porto
